import Mathlib

/-!
# Hematite stream database — shallow embedding and verification

This file embeds the per-stream storage engine of the Hematite event
store (`src/db.rs`) and the stream-registry operations it needs
(`src/server.rs`, `AppState::delete_stream`) and proves or refutes the
spec claims about it.

Modelling conventions:

* A CloudEvent is opaque to the engine except for its `source` and `id`
  accessors and the length of its `serde_json` serialization; `Event`
  below records exactly those.  The record file (`events.ndjson`,
  newline-delimited JSON, one event per line) is modelled as the list of
  the decoded events of its lines; the byte offset at which line `i`
  begins is recovered from the serialized lengths (`lineStart`).
* The Rust `Database` struct holds a `path: PathBuf` and reopens the
  file at that path on every operation.  Since every stream has its own
  path and no handle is cached, the on-disk file is modelled inline as a
  field `file : Option (List Event)` (`none` = no file on disk; every
  operation that opens with `create(true)` materializes `some []`).
* `BTreeMap<u64, u64>` (the primary index) is modelled as an association
  list sorted by key (`btInsert` preserves order, `getLast?` is
  `last_key_value`); `BTreeMap<(String, String), u64>` (the source/id
  index) as an association list with insert-or-replace, since the code
  only ever queries membership.
* I/O failures and malformed JSON lines cannot arise in the model (the
  file already holds decoded events), so `load` and `start` are total;
  the `Result` values whose error paths survive the embedding are kept
  as `Except DbError`.
-/

namespace Hematite

/-- Decidable equality for `Except` results, so concrete runs can be
checked by `decide`. -/
instance {ε α : Type} [DecidableEq ε] [DecidableEq α] : DecidableEq (Except ε α) :=
  fun x y =>
    match x, y with
    | .ok a, .ok b =>
      if h : a = b then isTrue (by rw [h])
      else isFalse (fun hc => h (Except.ok.inj hc))
    | .ok _, .error _ => isFalse (fun hc => Except.noConfusion hc)
    | .error _, .ok _ => isFalse (fun hc => Except.noConfusion hc)
    | .error a, .error b =>
      if h : a = b then isTrue (by rw [h])
      else isFalse (fun hc => h (Except.error.inj hc))

/-- The parts of a `cloudevents::Event` the engine observes: the
`source()` and `id()` accessors and the byte length of
`serde_json::to_string(&event)` (without the trailing newline). -/
structure Event where
  source : String
  id : String
  jsonLen : Nat
deriving DecidableEq, Repr

/-- `RunState` from `src/db.rs`. -/
inductive RunState where
  | Stopped
  | Running
deriving DecidableEq, Repr

/-- `db::Error` from `src/db.rs`, plus `Other` for the anyhow-level
errors (`ensure!` messages and wrapped I/O context). -/
inductive DbError where
  | RevisionMismatch
  | SourceIdConflict
  | Stopped
  | Other (msg : String)
deriving DecidableEq, Repr

/-- `ExpectedRevision` from `src/db.rs`. -/
inductive ExpectedRevision where
  | Any
  | NoStream
  | StreamExists
  | Exact (n : Nat)
deriving DecidableEq, Repr

/-- On-disk byte length of one record line: the JSON plus its `\n`. -/
def lineLen (e : Event) : Nat := e.jsonLen + 1

/-- Total byte length of the record file. -/
def totalLen (f : List Event) : Nat := (f.map lineLen).sum

/-- Byte offset at which line `i` of the record file begins. -/
def lineStart (f : List Event) (i : Nat) : Nat :=
  ((f.take i).map lineLen).sum

/-- Lookup in the sorted association list modelling
`BTreeMap<u64, u64>::get`. -/
def btGet (k : Nat) : List (Nat × Nat) → Option Nat
  | [] => none
  | kv :: rest => if kv.1 = k then some kv.2 else btGet k rest

/-- Ordered insert-or-replace modelling `BTreeMap<u64, u64>::insert`. -/
def btInsert (k v : Nat) : List (Nat × Nat) → List (Nat × Nat)
  | [] => [(k, v)]
  | kv :: rest =>
    if k < kv.1 then (k, v) :: kv :: rest
    else if k = kv.1 then (k, v) :: rest
    else kv :: btInsert k v rest

/-- Membership test modelling
`BTreeMap<(String, String), u64>::contains_key`. -/
def sidContains (p : String × String) (m : List ((String × String) × Nat)) : Bool :=
  m.any (fun q => decide (q.1 = p))

/-- Insert-or-replace modelling `BTreeMap<(String, String), u64>::insert`. -/
def sidInsert (p : String × String) (v : Nat) :
    List ((String × String) × Nat) → List ((String × String) × Nat)
  | [] => [(p, v)]
  | q :: rest => if q.1 = p then (p, v) :: rest else q :: sidInsert p v rest

/-- `Database` from `src/db.rs`; the file at `path` is inlined as
`file` (see the header comment). -/
structure Database where
  state : RunState
  file : Option (List Event)
  primary_index : List (Nat × Nat)
  source_id_index : List ((String × String) × Nat)
deriving DecidableEq, Repr

/-- `Database::new`: stopped, empty indexes; the disk is untouched, so
the constructor takes the current file state at the path. -/
def Database.new (file : Option (List Event)) : Database :=
  { state := .Stopped, file := file, primary_index := [], source_id_index := [] }

/-- The enumeration loop of `Database::load`: for each line, insert
`(rowid, offset)` into the primary index and `((source, id), rowid)`
into the source/id index, advancing the offset by `rowlen + 1`. -/
def loadGo : List Event → Nat → Nat → Database → Database
  | [], _, _, db => db
  | e :: rest, rowid, offset, db =>
    loadGo rest (rowid + 1) (offset + lineLen e)
      { db with
        primary_index := btInsert rowid offset db.primary_index,
        source_id_index := sidInsert (e.source, e.id) rowid db.source_id_index }

/-- `Database::load`: opens the record file with `create(true)`
(materializing it if absent) and scans it line by line.  Decode and I/O
failures cannot arise in the model, so `load` is total. -/
def Database.load (db : Database) : Database :=
  let f := db.file.getD []
  loadGo f 0 0 { db with file := some f }

/-- `Database::start`: no-op returning `false` when already `Running`;
otherwise load the file, transition to `Running`, return `true`. -/
def Database.start (db : Database) : Bool × Database :=
  match db.state with
  | .Running => (false, db)
  | .Stopped =>
    let db' := db.load
    (true, { db' with state := .Running })

/-- A freshly started database over the given disk state. -/
def Database.started (file : Option (List Event)) : Database :=
  ((Database.new file).start).2

/-- `Database::revision`: the key of `last_key_value()`, or `0` for an
empty index. -/
def Database.revision (db : Database) : Nat :=
  match db.primary_index.getLast? with
  | none => 0
  | some kv => kv.1

/-- The row index whose line begins exactly at byte `off`, scanning the
lines in order; `none` when `off` falls strictly inside a line (reading
from there yields a partial line, which does not decode — the model
does not assume a proper suffix of a JSON line is decodable). -/
def rowAt : List Event → Nat → Option Nat
  | [], _ => none
  | e :: rest, off =>
    if off = 0 then some 0
    else if off < lineLen e then none
    else (rowAt rest (off - lineLen e)).map (· + 1)

/-- `Database::query`: requires `Running`; opens the file with
`create(true)`; looks `rownum` up in the primary index (absent →
`Ok(None)`); seeks to the stored offset and decodes the first line
found there (none at or past EOF → `Ok(None)`). -/
def Database.query (db : Database) (rownum : Nat) :
    Database × Except DbError (Option Event) :=
  if db.state = RunState.Running then
    let f := db.file.getD []
    let db' := { db with file := some f }
    match btGet rownum db.primary_index with
    | none => (db', .ok none)
    | some off =>
      if totalLen f ≤ off then (db', .ok none)
      else
        match rowAt f off with
        | some i => (db', .ok f[i]?)
        | none => (db', .error (.Other "Failed to decode row"))
  else (db, .error .Stopped)

/-- `Database::query_many`: requires `Running`; looks `start` up in the
primary index (absent → `Ok(vec![])`); seeks to the stored offset and
reads up to `limit` lines, decoding each. -/
def Database.query_many (db : Database) (start limit : Nat) :
    Database × Except DbError (List Event) :=
  if db.state = RunState.Running then
    let f := db.file.getD []
    let db' := { db with file := some f }
    match btGet start db.primary_index with
    | none => (db', .ok [])
    | some off =>
      if limit = 0 then (db', .ok [])
      else if totalLen f ≤ off then (db', .ok [])
      else
        match rowAt f off with
        | some i => (db', .ok ((f.drop i).take limit))
        | none => (db', .error (.Other "Failed to decode row"))
  else (db, .error .Stopped)

/-- The expected-revision check shared verbatim by `Database::insert`
and `Database::insert_batch` (`src/db.rs:187-196` and `215-224`). -/
def revisionMatch (expected : ExpectedRevision) (idx : List (Nat × Nat)) : Bool :=
  match expected with
  | .Any => true
  | .NoStream => idx.getLast?.isNone
  | .StreamExists => idx.getLast?.isSome
  | .Exact n =>
    match idx.getLast? with
    | none => false
    | some kv => kv.1 = n

/-- `event_lengths` from `Database::write_events`: entry `i` is
`bytes.len()` just before event `i` is serialized into the buffer,
i.e. the cumulative length of the earlier lines of the batch. -/
def eventLengths : List Event → Nat → List Nat
  | [], _ => []
  | e :: rest, acc => acc :: eventLengths rest (acc + lineLen e)

/-- The index-update loop of `Database::write_events`: for each event
(zipped with its `event_lengths` entry), read `last_key_value()` of the
*current* primary index to pick the next rownum and offset
(`None → (0, 0)`, `Some((last, _)) → (last + 1, prev_offset)`), then
advance `prev_offset` by the zipped length and record both index
entries. -/
def writeLoop : List (Event × Nat) → Nat → Nat → Database → Database × Nat
  | [], _, lastRev, db => (db, lastRev)
  | (e, elen) :: rest, prevOff, _, db =>
    let rn : Nat × Nat :=
      match db.primary_index.getLast? with
      | none => (0, 0)
      | some kv => (kv.1 + 1, prevOff)
    writeLoop rest (prevOff + elen) rn.1
      { db with
        primary_index := btInsert rn.1 rn.2 db.primary_index,
        source_id_index := sidInsert (e.source, e.id) rn.1 db.source_id_index }

/-- `Database::write_events`: rejects an empty batch; rejects (before
any write) a batch containing an event whose `(source, id)` is already
in the source/id index; otherwise appends all serialized lines at the
end of the file (`position` = prior file length) and runs the
index-update loop, returning `last_revision`. -/
def Database.write_events (db : Database) (events : List Event) :
    Database × Except DbError Nat :=
  if events.isEmpty then (db, .error (.Other "Events list cannot be empty"))
  else if events.any (fun e => sidContains (e.source, e.id) db.source_id_index) then
    (db, .error .SourceIdConflict)
  else
    let f := db.file.getD []
    let position := totalLen f
    let db1 : Database := { db with file := some (f ++ events) }
    let res := writeLoop (events.zip (eventLengths events 0)) position 0 db1
    (res.1, .ok res.2)

/-- `Database::insert`: requires `Running`; on a revision match,
delegates to `write_events` with the singleton batch; otherwise fails
with `RevisionMismatch`. -/
def Database.insert (db : Database) (event : Event) (expected : ExpectedRevision) :
    Database × Except DbError Nat :=
  if db.state = RunState.Running then
    if revisionMatch expected db.primary_index then db.write_events [event]
    else (db, .error .RevisionMismatch)
  else (db, .error .Stopped)

/-- `Database::insert_batch`: requires `Running` and a non-empty batch;
on a revision match, delegates to `write_events`; otherwise fails with
`RevisionMismatch`. -/
def Database.insert_batch (db : Database) (events : List Event)
    (expected : ExpectedRevision) : Database × Except DbError Nat :=
  if db.state = RunState.Running then
    if events.isEmpty then (db, .error (.Other "Events list cannot be empty"))
    else if revisionMatch expected db.primary_index then db.write_events events
    else (db, .error .RevisionMismatch)
  else (db, .error .Stopped)

/-- `Database::delete`: removes the record file (an error when it does
not exist, as `fs::remove_file` fails then, leaving the indexes
untouched) and clears both indexes.  Note: no run-state check. -/
def Database.delete (db : Database) : Database × Except DbError Unit :=
  match db.file with
  | none => (db, .error (.Other "Failed to delete database file"))
  | some _ =>
    ({ db with file := none, primary_index := [], source_id_index := [] }, .ok ())

/-- The primary index `load` builds for a file: entry `i` holds the
byte offset at which line `i` begins. -/
def correctIndex (f : List Event) : List (Nat × Nat) :=
  (List.range f.length).map (fun i => (i, lineStart f i))

/-- Structural well-formedness of the primary index used by the
metatheory: its keys are exactly the rownums `0 .. count-1` of the
events on disk, in order. -/
def keysOk (db : Database) : Prop :=
  db.primary_index.map Prod.fst = List.range (db.file.getD []).length

/-- The source/id index holds exactly the `(source, id)` pairs of the
events on disk. -/
def sidOk (db : Database) : Prop :=
  ∀ p : String × String,
    sidContains p db.source_id_index =
      (db.file.getD []).any (fun e => decide ((e.source, e.id) = p))

/-- One append operation at the public interface. -/
inductive AppendOp where
  | single (e : Event) (expected : ExpectedRevision)
  | batch (es : List Event) (expected : ExpectedRevision)

/-- Run one append operation. -/
def applyOp (db : Database) : AppendOp → Database × Except DbError Nat
  | .single e expected => db.insert e expected
  | .batch es expected => db.insert_batch es expected

/-- Run a sequence of append operations, threading the database. -/
def runOps : Database → List AppendOp → Database
  | db, [] => db
  | db, op :: rest => runOps (applyOp db op).1 rest

/-- All operations in the sequence succeeded. -/
def allOk : Database → List AppendOp → Bool
  | _, [] => true
  | db, op :: rest =>
    match applyOp db op with
    | (db', .ok _) => allOk db' rest
    | (_, .error _) => false

/-- The registry map `StreamMap = DashMap<UserStreamId, …Database…>`
from `src/server.rs`, modelled as an association list with unique
keys observed through `smLookup`/`smRemove`. -/
abbrev StreamMap := List ((String × String) × Database)

/-- `DashMap::get`-style lookup. -/
def smLookup (k : String × String) : StreamMap → Option Database
  | [] => none
  | kv :: rest => if kv.1 = k then some kv.2 else smLookup k rest

/-- `DashMap::remove`: drop the entry with the given key. -/
def smRemove (k : String × String) (m : StreamMap) : StreamMap :=
  m.filter (fun kv => decide (kv.1 ≠ k))

/-- `AppState` from `src/server.rs` (the `streams_path` root is not
needed by the modelled operations). -/
structure AppState where
  streams : StreamMap
deriving DecidableEq, Repr

/-- `AppState::delete_stream`: remove the `(user, stream)` entry; if it
was present, delete the database's on-disk file and return `Ok(true)`
(propagating a deletion failure); otherwise return `Ok(false)`. -/
def AppState.delete_stream (s : AppState) (u i : String) :
    AppState × Except DbError Bool :=
  match smLookup (u, i) s.streams with
  | none => (s, .ok false)
  | some db =>
    let s' : AppState := ⟨smRemove (u, i) s.streams⟩
    match (db.delete).2 with
    | .ok _ => (s', .ok true)
    | .error e => (s', .error e)

/-- Concrete events used by counterexamples and witnesses. -/
def evA : Event := ⟨"a", "1", 40⟩

def evB : Event := ⟨"a", "2", 40⟩

def evC : Event := ⟨"b", "1", 25⟩

/-- A freshly started database over no prior file (the empty stream). -/
def db₀ : Database := Database.started none

/-! ## Association-list and byte-offset lemmas -/

lemma sidContains_cons (p : String × String) (kv : (String × String) × Nat)
    (m : List ((String × String) × Nat)) :
    sidContains p (kv :: m) = (decide (kv.1 = p) || sidContains p m) := rfl

lemma sidContains_sidInsert (p q : String × String) (v : Nat)
    (m : List ((String × String) × Nat)) :
    sidContains p (sidInsert q v m) = (decide (q = p) || sidContains p m) := by
  induction m with
  | nil => simp [sidContains, sidInsert]
  | cons kv rest ih =>
    by_cases h : kv.1 = q
    · rw [sidInsert, if_pos h, sidContains_cons, sidContains_cons, h]
      cases hqp : decide (q = p) <;> simp [hqp]
    · rw [sidInsert, if_neg h, sidContains_cons, sidContains_cons, ih]
      cases hqp : decide (q = p) <;> cases hkp : decide (kv.1 = p) <;>
        simp [hqp, hkp]

lemma btInsert_eq_append : ∀ (l : List (Nat × Nat)) (a m v : Nat),
    l.map Prod.fst = List.range' a m → btInsert (a + m) v l = l ++ [(a + m, v)] := by
  intro l
  induction l with
  | nil =>
    intro a m v h
    have hm : m = 0 := by
      by_contra hm
      obtain ⟨m', rfl⟩ := Nat.exists_eq_succ_of_ne_zero hm
      rw [List.range'_succ] at h
      exact List.noConfusion h
    subst hm
    rfl
  | cons kv t ih =>
    intro a m v h
    obtain ⟨m', rfl⟩ : ∃ m', m = m' + 1 := by
      cases m with
      | zero => simp at h
      | succ m' => exact ⟨m', rfl⟩
    rw [List.range'_succ, List.map_cons] at h
    have hk : kv.1 = a := (List.cons.inj h).1
    have ht : t.map Prod.fst = List.range' (a + 1) m' := (List.cons.inj h).2
    have h1 : ¬ (a + (m' + 1) < kv.1) := by omega
    have h2 : ¬ (a + (m' + 1) = kv.1) := by omega
    rw [btInsert, if_neg h1, if_neg h2]
    have := ih (a + 1) m' v ht
    rw [show a + (m' + 1) = (a + 1) + m' by omega] at *
    rw [this]
    simp

lemma btInsert_keys_append {l : List (Nat × Nat)} {n : Nat} (v : Nat)
    (h : l.map Prod.fst = List.range n) : btInsert n v l = l ++ [(n, v)] := by
  have := btInsert_eq_append l 0 n v (by rw [← List.range_eq_range']; exact h)
  simpa using this

lemma range_getLast? (n : Nat) :
    (List.range n).getLast? = if n = 0 then none else some (n - 1) := by
  cases n with
  | zero => rfl
  | succ m => rw [List.range_succ, List.getLast?_concat]; simp

lemma getLast?_map_fst (l : List (Nat × Nat)) :
    (l.getLast?).map Prod.fst = (l.map Prod.fst).getLast? := by
  induction l with
  | nil => rfl
  | cons kv t ih =>
    cases t with
    | nil => rfl
    | cons kv' t' =>
      rw [List.getLast?_cons_cons, List.map_cons, List.map_cons,
        List.getLast?_cons_cons]
      exact ih

lemma getLast?_of_keys {l : List (Nat × Nat)} {n : Nat}
    (h : l.map Prod.fst = List.range (n + 1)) : ∃ v, l.getLast? = some (n, v) := by
  have h1 : (l.getLast?).map Prod.fst = some n := by
    rw [getLast?_map_fst, h, range_getLast?]
    simp
  cases hl : l.getLast? with
  | none => rw [hl] at h1; exact Option.noConfusion h1
  | some kv =>
    rw [hl] at h1
    have h2 : kv.1 = n := Option.some.inj h1
    subst h2
    exact ⟨kv.2, rfl⟩

lemma keys_nil_of_range_zero {l : List (Nat × Nat)}
    (h : l.map Prod.fst = List.range 0) : l = [] := by
  cases l with
  | nil => rfl
  | cons kv t => simp [List.range_zero] at h

lemma revision_of_keys {db : Database} (h : keysOk db) :
    db.revision = (db.file.getD []).length - 1 := by
  unfold keysOk at h
  unfold Database.revision
  cases hn : (db.file.getD []).length with
  | zero =>
    rw [hn] at h
    rw [keys_nil_of_range_zero h]
    rfl
  | succ m =>
    rw [hn] at h
    obtain ⟨v, hv⟩ := getLast?_of_keys h
    simp [hv]

lemma totalLen_cons (e : Event) (t : List Event) :
    totalLen (e :: t) = lineLen e + totalLen t := by
  simp [totalLen]

lemma lineStart_zero (f : List Event) : lineStart f 0 = 0 := rfl

lemma lineStart_cons_succ (e : Event) (t : List Event) (i : Nat) :
    lineStart (e :: t) (i + 1) = lineLen e + lineStart t i := by
  simp [lineStart, List.take_succ_cons]

lemma lineLen_pos (e : Event) : 0 < lineLen e := Nat.succ_pos _

lemma lineStart_lt_totalLen {f : List Event} {i : Nat} (h : i < f.length) :
    lineStart f i < totalLen f := by
  induction f generalizing i with
  | nil => cases h
  | cons e t ih =>
    cases i with
    | zero =>
      rw [lineStart_zero, totalLen_cons]
      have := lineLen_pos e
      omega
    | succ j =>
      have hj : j < t.length := Nat.lt_of_succ_lt_succ (by simpa using h)
      rw [lineStart_cons_succ, totalLen_cons]
      have := ih hj
      omega

lemma rowAt_lineStart {f : List Event} {s : Nat} (h : s < f.length) :
    rowAt f (lineStart f s) = some s := by
  induction f generalizing s with
  | nil => cases h
  | cons e t ih =>
    cases s with
    | zero => rw [lineStart_zero]; rfl
    | succ j =>
      have hj : j < t.length := Nat.lt_of_succ_lt_succ (by simpa using h)
      rw [lineStart_cons_succ]
      have hpos := lineLen_pos e
      rw [rowAt, if_neg (by omega), if_neg (by omega)]
      rw [show lineLen e + lineStart t j - lineLen e = lineStart t j by omega]
      rw [ih hj]
      rfl

lemma btGet_map_range' : ∀ (n a k : Nat) (g : Nat → Nat),
    btGet k ((List.range' a n).map (fun i => (i, g i))) =
      if a ≤ k ∧ k < a + n then some (g k) else none := by
  intro n
  induction n with
  | zero =>
    intro a k g
    rw [if_neg (by omega)]
    rfl
  | succ m ih =>
    intro a k g
    rw [List.range'_succ, List.map_cons, btGet]
    by_cases hak : a = k
    · rw [if_pos hak, if_pos (by omega)]
      rw [hak]
    · rw [if_neg hak, ih]
      by_cases hc : a + 1 ≤ k ∧ k < a + 1 + m
      · rw [if_pos hc, if_pos (by omega)]
      · rw [if_neg hc, if_neg (by omega)]

lemma btGet_correctIndex (f : List Event) (k : Nat) :
    btGet k (correctIndex f) =
      if k < f.length then some (lineStart f k) else none := by
  unfold correctIndex
  rw [List.range_eq_range', btGet_map_range']
  by_cases hc : k < f.length
  · rw [if_pos (by omega), if_pos hc]
  · rw [if_neg (by omega), if_neg hc]

lemma correctIndex_keys (f : List Event) :
    (correctIndex f).map Prod.fst = List.range f.length := by
  unfold correctIndex
  rw [List.map_map]
  exact List.map_id _

/-! ## The write path -/

lemma writeLoop_spec : ∀ (es : List (Event × Nat)) (po lr : Nat) (db : Database)
    (n : Nat), db.primary_index.map Prod.fst = List.range n →
    ((writeLoop es po lr db).1.primary_index.map Prod.fst =
      List.range (n + es.length)) ∧
    ((writeLoop es po lr db).1.file = db.file) ∧
    ((writeLoop es po lr db).1.state = db.state) ∧
    ((writeLoop es po lr db).2 = if es.length = 0 then lr else n + es.length - 1) ∧
    (∀ p, sidContains p (writeLoop es po lr db).1.source_id_index =
      ((es.any (fun q => decide ((q.1.source, q.1.id) = p))) ||
        sidContains p db.source_id_index)) := by
  intro es
  induction es with
  | nil =>
    intro po lr db n h
    exact ⟨by simpa using h, rfl, rfl, by simp [writeLoop], by simp [writeLoop]⟩
  | cons pr rest ih =>
    intro po lr db n h
    obtain ⟨e, elen⟩ := pr
    have hstep : ∃ off, writeLoop ((e, elen) :: rest) po lr db =
        writeLoop rest (po + elen) n
          { db with
            primary_index := btInsert n off db.primary_index,
            source_id_index := sidInsert (e.source, e.id) n db.source_id_index } := by
      cases n with
      | zero =>
        have hnil := keys_nil_of_range_zero h
        exact ⟨0, by simp [writeLoop, hnil]⟩
      | succ m =>
        obtain ⟨v, hv⟩ := getLast?_of_keys h
        exact ⟨po, by simp [writeLoop, hv]⟩
    obtain ⟨off, hstep⟩ := hstep
    have hkeys' : (btInsert n off db.primary_index).map Prod.fst =
        List.range (n + 1) := by
      rw [btInsert_keys_append off h, List.map_append, h]
      simp [List.range_succ]
    obtain ⟨ih1, ih2, ih3, ih4, ih5⟩ :=
      ih (po + elen) n
        { db with
          primary_index := btInsert n off db.primary_index,
          source_id_index := sidInsert (e.source, e.id) n db.source_id_index }
        (n + 1) hkeys'
    rw [hstep]
    refine ⟨?_, ih2, ih3, ?_, ?_⟩
    · rw [ih1, List.length_cons]
      congr 1
      omega
    · rw [ih4, List.length_cons]
      rcases Nat.eq_zero_or_pos rest.length with hr | hr
      · simp [hr]
      · rw [if_neg (by omega), if_neg (by omega)]
        omega
    · intro p
      rw [ih5 p]
      simp only [sidContains_sidInsert, List.any_cons]
      cases hA : rest.any (fun q => decide ((q.1.source, q.1.id) = p)) <;>
        cases hB : decide ((e.source, e.id) = p) <;>
          simp [hA, hB]

lemma eventLengths_length (es : List Event) (acc : Nat) :
    (eventLengths es acc).length = es.length := by
  induction es generalizing acc with
  | nil => rfl
  | cons e t ih => simp [eventLengths, ih]

lemma zip_any_fst : ∀ (es : List Event) (ls : List Nat), es.length ≤ ls.length →
    ∀ (g : Event → Bool), (es.zip ls).any (fun q => g q.1) = es.any g := by
  intro es
  induction es with
  | nil => intro ls h g; rfl
  | cons e t ih =>
    intro ls h g
    cases ls with
    | nil => simp at h
    | cons a ls' =>
      rw [List.zip_cons_cons, List.any_cons, List.any_cons,
        ih ls' (by simpa using h) g]

lemma zip_eventLengths_length (es : List Event) :
    (es.zip (eventLengths es 0)).length = es.length := by
  rw [List.length_zip, eventLengths_length]
  omega

lemma ne_nil_of_isEmpty_false {es : List Event} (h : es.isEmpty = false) :
    es ≠ [] := by
  cases es with
  | nil => simp at h
  | cons e t => exact List.cons_ne_nil e t

lemma write_events_ok_spec {db : Database} {es : List Event}
    (hk : keysOk db) (hne : es.isEmpty = false)
    (hc : es.any (fun e => sidContains (e.source, e.id) db.source_id_index)
      = false) :
    ∃ db', db.write_events es =
        (db', .ok ((db.file.getD []).length + es.length - 1)) ∧
      db'.file = some (db.file.getD [] ++ es) ∧
      db'.state = db.state ∧
      keysOk db' ∧
      (∀ p, sidContains p db'.source_id_index =
        ((es.any (fun e => decide ((e.source, e.id) = p))) ||
          sidContains p db.source_id_index)) := by
  have hlen : es.length ≠ 0 := by
    have := ne_nil_of_isEmpty_false hne
    simpa [List.length_eq_zero] using this
  obtain ⟨w1, w2, w3, w4, w5⟩ :=
    writeLoop_spec (es.zip (eventLengths es 0)) (totalLen (db.file.getD [])) 0
      { db with file := some (db.file.getD [] ++ es) }
      (db.file.getD []).length hk
  refine ⟨(writeLoop (es.zip (eventLengths es 0)) (totalLen (db.file.getD [])) 0
    { db with file := some (db.file.getD [] ++ es) }).1, ?_, ?_, ?_, ?_, ?_⟩
  · unfold Database.write_events
    rw [if_neg (by simp [hne]), if_neg (by simp [hc])]
    rw [Prod.mk.injEq]
    refine ⟨rfl, ?_⟩
    rw [w4, zip_eventLengths_length, if_neg hlen]
  · rw [w2]
  · rw [w3]
  · unfold keysOk
    rw [w1, w2, zip_eventLengths_length]
    simp
  · intro p
    rw [w5 p, zip_any_fst es (eventLengths es 0)
      (by rw [eventLengths_length]) (fun e => decide ((e.source, e.id) = p))]

/-! ## The load / start path -/

lemma loadGo_spec : ∀ (f : List Event) (r o : Nat) (db : Database),
    db.primary_index.map Prod.fst = List.range r →
    ((loadGo f r o db).primary_index =
      db.primary_index ++
        (List.range f.length).map (fun i => (r + i, o + lineStart f i))) ∧
    ((loadGo f r o db).file = db.file) ∧
    ((loadGo f r o db).state = db.state) ∧
    (∀ p, sidContains p (loadGo f r o db).source_id_index =
      ((f.any (fun e => decide ((e.source, e.id) = p))) ||
        sidContains p db.source_id_index)) := by
  intro f
  induction f with
  | nil =>
    intro r o db h
    exact ⟨by simp [loadGo], rfl, rfl, by simp [loadGo]⟩
  | cons e t ih =>
    intro r o db h
    have hins : btInsert r o db.primary_index = db.primary_index ++ [(r, o)] :=
      btInsert_keys_append o h
    have hkeys' : (btInsert r o db.primary_index).map Prod.fst =
        List.range (r + 1) := by
      rw [hins, List.map_append, h]
      simp [List.range_succ]
    obtain ⟨ih1, ih2, ih3, ih4⟩ :=
      ih (r + 1) (o + lineLen e)
        { db with
          primary_index := btInsert r o db.primary_index,
          source_id_index := sidInsert (e.source, e.id) r db.source_id_index }
        hkeys'
    have hstep : loadGo (e :: t) r o db =
        loadGo t (r + 1) (o + lineLen e)
          { db with
            primary_index := btInsert r o db.primary_index,
            source_id_index := sidInsert (e.source, e.id) r db.source_id_index } :=
      rfl
    rw [hstep]
    refine ⟨?_, ih2, ih3, ?_⟩
    · rw [ih1]
      show btInsert r o db.primary_index ++ _ = _
      rw [hins, List.length_cons, List.range_succ_eq_map, List.map_cons,
        List.map_map, List.append_assoc, List.singleton_append]
      apply congrArg
      refine List.cons_eq_cons.mpr ⟨?_, ?_⟩
      · show ((r : Nat), (o : Nat)) = (r + 0, o + lineStart (e :: t) 0)
        rw [lineStart_zero, Nat.add_zero, Nat.add_zero]
      · apply List.map_congr_left
        intro i _
        show (r + 1 + i, o + lineLen e + lineStart t i) =
          (r + (i + 1), o + lineStart (e :: t) (i + 1))
        rw [lineStart_cons_succ]
        congr 1
        · omega
        · omega
    · intro p
      rw [ih4 p]
      simp only [sidContains_sidInsert, List.any_cons]
      cases hA : t.any (fun q => decide ((q.source, q.id) = p)) <;>
        cases hB : decide ((e.source, e.id) = p) <;>
          simp [hA, hB]

/-- `start` on a stopped database with empty in-memory indexes (the
only stopped databases the code ever constructs): it loads the log,
builds both indexes, transitions to `Running` and reports `true`. -/
lemma start_stopped_spec {db : Database}
    (hs : db.state = .Stopped) (hp : db.primary_index = [])
    (hq : db.source_id_index = []) :
    (db.start).1 = true ∧
    (db.start).2.state = .Running ∧
    (db.start).2.file = some (db.file.getD []) ∧
    (db.start).2.primary_index = correctIndex (db.file.getD []) ∧
    (∀ p, sidContains p (db.start).2.source_id_index =
      (db.file.getD []).any (fun e => decide ((e.source, e.id) = p))) := by
  obtain ⟨l1, l2, l3, l4⟩ :=
    loadGo_spec (db.file.getD []) 0 0 { db with file := some (db.file.getD []) }
      (by simp [hp])
  have hstart : db.start = (true, { db.load with state := .Running }) := by
    unfold Database.start
    rw [hs]
  have hload : db.load = loadGo (db.file.getD []) 0 0
      { db with file := some (db.file.getD []) } := rfl
  rw [hstart]
  refine ⟨rfl, rfl, ?_, ?_, ?_⟩
  · show (db.load).file = _
    rw [hload, l2]
  · show (db.load).primary_index = _
    rw [hload, l1]
    show db.primary_index ++ _ = _
    rw [hp, List.nil_append]
    unfold correctIndex
    apply List.map_congr_left
    intro i _
    rw [Nat.zero_add, Nat.zero_add]
  · intro p
    show sidContains p (db.load).source_id_index = _
    rw [hload, l4 p]
    show (_ || sidContains p db.source_id_index) = _
    rw [hq]
    show (_ || sidContains p []) = _
    rw [show sidContains p [] = false from rfl, Bool.or_false]

/-- A freshly started database is well-formed: running, file
materialized, primary index correct, source/id index rebuilt. -/
lemma started_spec (f : Option (List Event)) :
    (Database.started f).state = .Running ∧
    (Database.started f).file = some (f.getD []) ∧
    (Database.started f).primary_index = correctIndex (f.getD []) ∧
    keysOk (Database.started f) ∧
    sidOk (Database.started f) := by
  unfold Database.started
  obtain ⟨s1, s2, s3, s4, s5⟩ :=
    @start_stopped_spec (Database.new f) rfl rfl rfl
  refine ⟨s2, s3, s4, ?_, ?_⟩
  · unfold keysOk
    rw [s4, s3]
    show (correctIndex ((Database.new f).file.getD [])).map Prod.fst = _
    rw [correctIndex_keys]
    rfl
  · intro p
    rw [s5 p, s3]
    rfl

/-! ## Inversion and invariant preservation -/

lemma write_events_ok_inv {db db' : Database} {es : List Event} {r : Nat}
    (hk : keysOk db) (h : db.write_events es = (db', .ok r)) :
    keysOk db' ∧ db'.file = some (db.file.getD [] ++ es) ∧
    db'.state = db.state ∧ r = (db.file.getD []).length + es.length - 1 ∧
    es ≠ [] ∧
    (∀ p, sidContains p db'.source_id_index =
      ((es.any (fun e => decide ((e.source, e.id) = p))) ||
        sidContains p db.source_id_index)) := by
  by_cases hemp : es.isEmpty = true
  · unfold Database.write_events at h
    rw [if_pos hemp] at h
    exact absurd (congrArg Prod.snd h) (by simp)
  · have hne : es.isEmpty = false := by simpa using hemp
    by_cases hc : es.any
        (fun e => sidContains (e.source, e.id) db.source_id_index) = true
    · unfold Database.write_events at h
      rw [if_neg (by simp [hne]), if_pos hc] at h
      exact absurd (congrArg Prod.snd h) (by simp)
    · have hc' : es.any
          (fun e => sidContains (e.source, e.id) db.source_id_index) = false := by
        simpa using hc
      obtain ⟨db'', heq, h2, h3, h4, h5⟩ := write_events_ok_spec hk hne hc'
      rw [heq] at h
      rw [Prod.mk.injEq] at h
      obtain ⟨hdb, hr⟩ := h
      have hr' : r = (db.file.getD []).length + es.length - 1 :=
        (Except.ok.inj hr).symm
      subst hdb
      exact ⟨h4, h2, h3, hr', ne_nil_of_isEmpty_false hne, h5⟩

lemma insert_ok_inv {db db' : Database} {e : Event} {expd : ExpectedRevision}
    {r : Nat} (hk : keysOk db) (h : db.insert e expd = (db', .ok r)) :
    keysOk db' ∧ db'.file = some (db.file.getD [] ++ [e]) ∧
    db'.state = db.state ∧
    (∀ p, sidContains p db'.source_id_index =
      ((decide ((e.source, e.id) = p)) || sidContains p db.source_id_index)) := by
  unfold Database.insert at h
  by_cases hs : db.state = RunState.Running
  · rw [if_pos hs] at h
    by_cases hm : revisionMatch expd db.primary_index = true
    · rw [if_pos hm] at h
      obtain ⟨k1, k2, k3, _, _, k6⟩ := write_events_ok_inv hk h
      refine ⟨k1, k2, k3, ?_⟩
      intro p
      rw [k6 p]
      simp
    · rw [if_neg hm] at h
      exact absurd (congrArg Prod.snd h) (by simp)
  · rw [if_neg hs] at h
    exact absurd (congrArg Prod.snd h) (by simp)

lemma insert_batch_ok_inv {db db' : Database} {es : List Event}
    {expd : ExpectedRevision} {r : Nat} (hk : keysOk db)
    (h : db.insert_batch es expd = (db', .ok r)) :
    keysOk db' ∧ db'.file = some (db.file.getD [] ++ es) ∧
    db'.state = db.state ∧
    (∀ p, sidContains p db'.source_id_index =
      ((es.any (fun e => decide ((e.source, e.id) = p))) ||
        sidContains p db.source_id_index)) := by
  unfold Database.insert_batch at h
  by_cases hs : db.state = RunState.Running
  · rw [if_pos hs] at h
    by_cases hemp : es.isEmpty = true
    · rw [if_pos hemp] at h
      exact absurd (congrArg Prod.snd h) (by simp)
    · rw [if_neg hemp] at h
      by_cases hm : revisionMatch expd db.primary_index = true
      · rw [if_pos hm] at h
        obtain ⟨k1, k2, k3, _, _, k6⟩ := write_events_ok_inv hk h
        exact ⟨k1, k2, k3, k6⟩
      · rw [if_neg hm] at h
        exact absurd (congrArg Prod.snd h) (by simp)
  · rw [if_neg hs] at h
    exact absurd (congrArg Prod.snd h) (by simp)

lemma runOps_keysOk : ∀ (ops : List AppendOp) (db : Database), keysOk db →
    allOk db ops = true → keysOk (runOps db ops) := by
  intro ops
  induction ops with
  | nil => intro db hk _; exact hk
  | cons op rest ih =>
    intro db hk hall
    unfold allOk at hall
    cases hop : applyOp db op with
    | mk db' res =>
      rw [hop] at hall
      cases res with
      | ok r =>
        have hk' : keysOk db' := by
          cases op with
          | single e expd => exact (insert_ok_inv hk hop).1
          | batch es expd => exact (insert_batch_ok_inv hk hop).1
        show keysOk (runOps (applyOp db op).1 rest)
        rw [hop]
        exact ih db' hk' hall
      | error err => exact absurd hall (by simp)

/-! ## Registry lemmas -/

lemma smLookup_smRemove_self (k : String × String) :
    ∀ m : StreamMap, smLookup k (smRemove k m) = none := by
  intro m
  induction m with
  | nil => rfl
  | cons kv rest ih =>
    unfold smRemove at ih ⊢
    by_cases h : kv.1 = k
    · rw [List.filter_cons, if_neg (by simp [h])]
      exact ih
    · rw [List.filter_cons, if_pos (by simp [h])]
      rw [smLookup, if_neg h]
      exact ih

lemma delete_stream_miss {s : AppState} {u i : String}
    (h : smLookup (u, i) s.streams = none) :
    s.delete_stream u i = (s, .ok false) := by
  unfold AppState.delete_stream
  rw [h]

/-! ## Claim C1 -/

/-- C1, counterexample: after the first successful append of one event
the stream holds one event but `revision()` returns `0`, not `1` (and
`0` therefore does not characterize the empty stream), refuting both
parts of the claim. -/
theorem revision_ne_count_after_first_insert :
    (db₀.insert evA .Any).1.file = some [evA] ∧
    (db₀.insert evA .Any).1.revision = 0 ∧
    ¬ (db₀.insert evA .Any).1.revision = 1 := by decide

/-- C1, amended: for every started stream database and every sequence
of successful appends, `revision()` equals the rownum of the last
event: the event count minus one for a non-empty stream, and `0` for an
empty stream (truncated subtraction covers both cases). -/
theorem revision_eq_event_count_sub_one (f : Option (List Event))
    (ops : List AppendOp) (h : allOk (Database.started f) ops = true) :
    (runOps (Database.started f) ops).revision =
      ((runOps (Database.started f) ops).file.getD []).length - 1 :=
  revision_of_keys
    (runOps_keysOk ops (Database.started f) ((started_spec f).2.2.2.1) h)

theorem revision_eq_event_count_sub_one_witness :
    allOk (Database.started none) [AppendOp.single evA .Any] = true ∧
    (runOps (Database.started none) [AppendOp.single evA .Any]).revision =
      ((runOps (Database.started none)
        [AppendOp.single evA .Any]).file.getD []).length - 1 :=
  ⟨by decide,
    revision_eq_event_count_sub_one none [AppendOp.single evA .Any] (by decide)⟩

/-! ## Claim C2 -/

/-- C2, counterexample: the first successful append of a single event
to an empty stream returns `0`, not `1` (the claimed
`R + len(events)` with `R = 0`). -/
theorem first_insert_returns_zero :
    (db₀.insert evA .Any).2 = .ok 0 ∧
    ¬ (db₀.insert evA .Any).2 = .ok 1 := by decide

/-- C2, amended: for every running stream database with `c` events
whose expected-revision precondition matches, a successful append of a
non-empty batch (insert for one event, insert_batch for a batch)
appends all the events and returns `c + len(events) - 1` — the rownum
of the last appended event, which also equals the new `revision()`;
in particular the first append of one event to an empty stream
returns `0`. -/
theorem append_returns_new_last_rownum :
    (∀ (db : Database) (es : List Event) (expd : ExpectedRevision),
      db.state = .Running → keysOk db →
      revisionMatch expd db.primary_index = true → es ≠ [] →
      es.any (fun e => sidContains (e.source, e.id) db.source_id_index)
        = false →
      ∃ db', db.insert_batch es expd =
          (db', .ok ((db.file.getD []).length + es.length - 1)) ∧
        db'.file = some (db.file.getD [] ++ es) ∧
        db'.revision = (db.file.getD []).length + es.length - 1) ∧
    (∀ (db : Database) (e : Event) (expd : ExpectedRevision),
      db.state = .Running → keysOk db →
      revisionMatch expd db.primary_index = true →
      sidContains (e.source, e.id) db.source_id_index = false →
      ∃ db', db.insert e expd = (db', .ok (db.file.getD []).length) ∧
        db'.file = some (db.file.getD [] ++ [e]) ∧
        db'.revision = (db.file.getD []).length) := by
  constructor
  · intro db es expd hs hk hm hne hc
    have hemp : es.isEmpty = false := by
      cases es with
      | nil => exact absurd rfl hne
      | cons a t => rfl
    obtain ⟨db', heq, h2, h3, h4, h5⟩ := write_events_ok_spec hk hemp hc
    refine ⟨db', ?_, h2, ?_⟩
    · unfold Database.insert_batch
      rw [if_pos hs, if_neg (by simp [hemp]), if_pos hm]
      exact heq
    · rw [revision_of_keys h4, h2]
      simp
  · intro db e expd hs hk hm hc
    have hc1 : ([e] : List Event).any
        (fun q => sidContains (q.source, q.id) db.source_id_index) = false := by
      simp [hc]
    obtain ⟨db', heq, h2, h3, h4, h5⟩ := write_events_ok_spec hk
      (show ([e] : List Event).isEmpty = false from rfl) hc1
    have hlen : (db.file.getD []).length + ([e] : List Event).length - 1 =
        (db.file.getD []).length := by simp
    rw [hlen] at heq
    refine ⟨db', ?_, h2, ?_⟩
    · unfold Database.insert
      rw [if_pos hs, if_pos hm]
      exact heq
    · rw [revision_of_keys h4, h2]
      simp

theorem append_returns_new_last_rownum_witness :
    db₀.state = RunState.Running ∧ keysOk db₀ ∧
    revisionMatch .Any db₀.primary_index = true ∧
    ([evA, evB] : List Event) ≠ [] ∧
    ([evA, evB] : List Event).any
      (fun e => sidContains (e.source, e.id) db₀.source_id_index) = false ∧
    (∃ db', db₀.insert_batch [evA, evB] .Any =
        (db', .ok ((db₀.file.getD []).length + [evA, evB].length - 1)) ∧
      db'.file = some (db₀.file.getD [] ++ [evA, evB]) ∧
      db'.revision = (db₀.file.getD []).length + [evA, evB].length - 1) :=
  ⟨by decide, by unfold keysOk; decide, by decide, by decide, by decide,
    append_returns_new_last_rownum.1 db₀ [evA, evB] .Any (by decide)
      (by unfold keysOk; decide) (by decide) (by decide) (by decide)⟩

/-! ## Claim C3 -/

/-- C3, counterexample: on a freshly started empty stream (`c = 0`),
`Exact(0)` does not match — the insert fails with `RevisionMismatch` —
whereas the claim says `Exact(n)` matches iff `c = n`, so `Exact(0)`
would match the empty stream. -/
theorem exact_zero_mismatch_on_empty_stream :
    (db₀.file.getD []).length = 0 ∧
    revisionMatch (.Exact 0) db₀.primary_index = false ∧
    (db₀.insert evA (.Exact 0)).2 = .error .RevisionMismatch := by decide

/-- C3, amended: against a stream with `c` events, `Any` always
matches; `NoStream` matches iff `c = 0`; `StreamExists` matches iff
`c > 0`; `Exact(n)` matches iff `c = n + 1` (the stream is non-empty
and its last rownum is `n`) — in particular `Exact(0)` matches exactly
the one-event stream and never the empty one. -/
theorem expected_revision_match_rule (db : Database) (hk : keysOk db) :
    revisionMatch .Any db.primary_index = true ∧
    (revisionMatch .NoStream db.primary_index = true ↔
      (db.file.getD []).length = 0) ∧
    (revisionMatch .StreamExists db.primary_index = true ↔
      0 < (db.file.getD []).length) ∧
    (∀ n, revisionMatch (.Exact n) db.primary_index = true ↔
      (db.file.getD []).length = n + 1) := by
  unfold keysOk at hk
  cases hn : (db.file.getD []).length with
  | zero =>
    rw [hn] at hk
    have hnil := keys_nil_of_range_zero hk
    refine ⟨rfl, ?_, ?_, ?_⟩
    · simp [revisionMatch, hnil]
    · simp [revisionMatch, hnil]
    · intro n
      simp [revisionMatch, hnil]
  | succ m =>
    rw [hn] at hk
    obtain ⟨v, hv⟩ := getLast?_of_keys hk
    refine ⟨rfl, ?_, ?_, ?_⟩
    · simp [revisionMatch, hv]
    · simp [revisionMatch, hv]
    · intro n
      simp [revisionMatch, hv]

theorem expected_revision_match_rule_witness :
    keysOk (db₀.insert evA .Any).1 ∧
    (revisionMatch (.Exact 0) (db₀.insert evA .Any).1.primary_index = true ↔
      ((db₀.insert evA .Any).1.file.getD []).length = 0 + 1) :=
  ⟨by unfold keysOk; decide,
    (expected_revision_match_rule (db₀.insert evA .Any).1
      (by unfold keysOk; decide)).2.2.2 0⟩

/-! ## Claim C4 -/

/-- C4: a single `insert_batch` of two events stores the byte offset
`0` for row `1` in the primary index, although line `1` of the record
file starts at byte `41` — `write_events` advances `prev_offset` by
the cumulative `event_lengths` entries instead of each line's length
and reads `prev_offset` one iteration too early.  The stored offsets
`[0, 0]` are not strictly increasing, restarting over the same file
rebuilds the differing (correct) index, and `query(1)` returns row 0's
event while the restarted database returns row 1's. -/
theorem batch_append_corrupts_offsets :
    (db₀.insert_batch [evA, evB] .Any).2 = .ok 1 ∧
    (db₀.insert_batch [evA, evB] .Any).1.file = some [evA, evB] ∧
    (db₀.insert_batch [evA, evB] .Any).1.primary_index = [(0, 0), (1, 0)] ∧
    lineStart [evA, evB] 1 = 41 ∧
    (Database.started (some [evA, evB])).primary_index = [(0, 0), (1, 41)] ∧
    ((db₀.insert_batch [evA, evB] .Any).1.query 1).2 = .ok (some evA) ∧
    ((Database.started (some [evA, evB])).query 1).2 = .ok (some evB) := by
  decide

/-! ## Claim C5 -/

/-- C5: whenever the expected-revision precondition does not match,
`insert` and `insert_batch` (on a non-empty batch) fail with
`RevisionMismatch` and return the database completely unchanged — in
particular `revision()` and the record file (no bytes written) are
those from before the call. -/
theorem revision_mismatch_leaves_stream_unchanged :
    (∀ (db : Database) (e : Event) (expd : ExpectedRevision),
      db.state = .Running → revisionMatch expd db.primary_index = false →
      db.insert e expd = (db, .error .RevisionMismatch)) ∧
    (∀ (db : Database) (es : List Event) (expd : ExpectedRevision),
      db.state = .Running → es ≠ [] →
      revisionMatch expd db.primary_index = false →
      db.insert_batch es expd = (db, .error .RevisionMismatch)) := by
  constructor
  · intro db e expd hs hm
    unfold Database.insert
    rw [if_pos hs, if_neg (by simp [hm])]
  · intro db es expd hs hne hm
    have hemp : es.isEmpty = false := by
      cases es with
      | nil => exact absurd rfl hne
      | cons a t => rfl
    unfold Database.insert_batch
    rw [if_pos hs, if_neg (by simp [hemp]), if_neg (by simp [hm])]

theorem revision_mismatch_leaves_stream_unchanged_witness :
    ((db₀.insert evA .Any).1.state = RunState.Running) ∧
    (revisionMatch .NoStream (db₀.insert evA .Any).1.primary_index = false) ∧
    ((db₀.insert evA .Any).1.insert evB .NoStream =
      ((db₀.insert evA .Any).1, .error .RevisionMismatch)) :=
  ⟨by decide, by decide,
    revision_mismatch_leaves_stream_unchanged.1 (db₀.insert evA .Any).1 evB
      .NoStream (by decide) (by decide)⟩

/-! ## Claim C6 -/

/-- C6: with a primary index that correctly mirrors the record file,
`query_many start limit` returns exactly the events at rows
`start, …, min(start + limit, count) - 1` in log order (the events of
revisions `start+1 .. min(start+limit, count)` in the spec's 1-based
numbering), and the empty vector when `start ≥ count`. -/
theorem query_many_returns_consecutive_events (db : Database)
    (f : List Event) (start limit : Nat) (hs : db.state = .Running)
    (hf : db.file = some f) (hidx : db.primary_index = correctIndex f) :
    (db.query_many start limit).2 = .ok ((f.drop start).take limit) ∧
    (f.length ≤ start → (db.query_many start limit).2 = .ok []) := by
  unfold Database.query_many
  rw [if_pos hs]
  by_cases hlt : start < f.length
  · constructor
    · by_cases hl0 : limit = 0
      · simp [hf, hidx, btGet_correctIndex, hlt, hl0]
      · have hoff := lineStart_lt_totalLen hlt
        simp [hf, hidx, btGet_correctIndex, hlt, hl0, rowAt_lineStart hlt,
          Nat.not_le.mpr hoff]
    · intro hge
      omega
  · have hdrop : f.drop start = [] :=
      List.drop_eq_nil_of_le (Nat.not_lt.mp hlt)
    constructor
    · simp [hf, hidx, btGet_correctIndex, hlt, hdrop]
    · intro _
      simp [hf, hidx, btGet_correctIndex, hlt]

theorem query_many_returns_consecutive_events_witness :
    ((Database.started (some [evA, evB, evC])).state = RunState.Running) ∧
    ((Database.started (some [evA, evB, evC])).file = some [evA, evB, evC]) ∧
    ((Database.started (some [evA, evB, evC])).primary_index =
      correctIndex [evA, evB, evC]) ∧
    (((Database.started (some [evA, evB, evC])).query_many 1 10).2 =
      .ok (([evA, evB, evC].drop 1).take 10)) ∧
    (((Database.started (some [evA, evB, evC])).query_many 5 10).2 = .ok []) :=
  ⟨by decide, by decide, by decide,
    (query_many_returns_consecutive_events (Database.started (some [evA, evB, evC]))
      [evA, evB, evC] 1 10 (by decide) (by decide) (by decide)).1,
    (query_many_returns_consecutive_events (Database.started (some [evA, evB, evC]))
      [evA, evB, evC] 5 10 (by decide) (by decide) (by decide)).2 (by decide)⟩

/-! ## Claim C7 -/

/-- C7, counterexample: `Database::delete` performs no run-state check —
on a stopped database whose file exists it succeeds with `Ok(())`
instead of failing with `Stopped`, refuting "every data operation
invoked in Stopped fails with Stopped" for `delete`. -/
theorem delete_succeeds_while_stopped :
    (Database.new (some [evA])).state = RunState.Stopped ∧
    ((Database.new (some [evA])).delete).2 = .ok () ∧
    ¬ ((Database.new (some [evA])).delete).2 = .error .Stopped := by decide

/-- C7, amended: `query`, `query_many`, `insert` and `insert_batch`
all fail with `Stopped` when the database is in the `Stopped` state
(leaving it unchanged), but `delete` checks no state: on a stopped
database whose file exists it succeeds, removing the file and clearing
the indexes. -/
theorem stopped_rejects_data_ops (db : Database)
    (hs : db.state = RunState.Stopped) :
    (∀ rownum, db.query rownum = (db, .error .Stopped)) ∧
    (∀ start limit, db.query_many start limit = (db, .error .Stopped)) ∧
    (∀ e expd, db.insert e expd = (db, .error .Stopped)) ∧
    (∀ es expd, db.insert_batch es expd = (db, .error .Stopped)) ∧
    (∀ f, db.file = some f → db.delete =
      ({ db with file := none, primary_index := [], source_id_index := [] },
        .ok ())) := by
  have hns : ¬ (db.state = RunState.Running) := by
    rw [hs]
    intro h
    exact RunState.noConfusion h
  refine ⟨?_, ?_, ?_, ?_, ?_⟩
  · intro rownum
    unfold Database.query
    rw [if_neg hns]
  · intro start limit
    unfold Database.query_many
    rw [if_neg hns]
  · intro e expd
    unfold Database.insert
    rw [if_neg hns]
  · intro es expd
    unfold Database.insert_batch
    rw [if_neg hns]
  · intro f hf
    unfold Database.delete
    rw [hf]

theorem stopped_rejects_data_ops_witness :
    ((Database.new (some [evA])).state = RunState.Stopped) ∧
    ((Database.new (some [evA])).insert evB .Any =
      (Database.new (some [evA]), .error .Stopped)) ∧
    ((Database.new (some [evA])).query_many 0 10 =
      (Database.new (some [evA]), .error .Stopped)) :=
  ⟨by decide,
    (stopped_rejects_data_ops (Database.new (some [evA])) (by decide)).2.2.1 evB .Any,
    (stopped_rejects_data_ops (Database.new (some [evA])) (by decide)).2.1 0 10⟩

/-! ## Keys-free facts about the write loop (for the source/id map) -/

lemma writeLoop_sid : ∀ (es : List (Event × Nat)) (po lr : Nat) (db : Database),
    ((writeLoop es po lr db).1.file = db.file) ∧
    (∀ p : String × String,
      sidContains p (writeLoop es po lr db).1.source_id_index =
        ((es.any (fun q => decide ((q.1.source, q.1.id) = p))) ||
          sidContains p db.source_id_index)) := by
  intro es
  induction es with
  | nil => intro po lr db; exact ⟨rfl, by simp [writeLoop]⟩
  | cons pr rest ih =>
    intro po lr db
    obtain ⟨e, elen⟩ := pr
    have hstep : ∃ rn : Nat × Nat, writeLoop ((e, elen) :: rest) po lr db =
        writeLoop rest (po + elen) rn.1
          { db with
            primary_index := btInsert rn.1 rn.2 db.primary_index,
            source_id_index :=
              sidInsert (e.source, e.id) rn.1 db.source_id_index } := by
      cases hl : db.primary_index.getLast? with
      | none => exact ⟨(0, 0), by simp [writeLoop, hl]⟩
      | some kv => exact ⟨(kv.1 + 1, po), by simp [writeLoop, hl]⟩
    obtain ⟨rn, hstep⟩ := hstep
    obtain ⟨ih1, ih2⟩ :=
      ih (po + elen) rn.1
        { db with
          primary_index := btInsert rn.1 rn.2 db.primary_index,
          source_id_index := sidInsert (e.source, e.id) rn.1 db.source_id_index }
    rw [hstep]
    refine ⟨ih1, ?_⟩
    intro p
    rw [ih2 p]
    simp only [sidContains_sidInsert, List.any_cons]
    cases hA : rest.any (fun q => decide ((q.1.source, q.1.id) = p)) <;>
      cases hB : decide ((e.source, e.id) = p) <;>
        simp [hA, hB]

lemma write_events_ok_sid {db db' : Database} {es : List Event} {r : Nat}
    (h : db.write_events es = (db', .ok r)) :
    db'.file = some (db.file.getD [] ++ es) ∧
    (∀ p, sidContains p db'.source_id_index =
      ((es.any (fun e => decide ((e.source, e.id) = p))) ||
        sidContains p db.source_id_index)) := by
  by_cases hemp : es.isEmpty = true
  · unfold Database.write_events at h
    rw [if_pos hemp] at h
    exact absurd (congrArg Prod.snd h) (by simp)
  · have hne : es.isEmpty = false := by simpa using hemp
    by_cases hc : es.any
        (fun e => sidContains (e.source, e.id) db.source_id_index) = true
    · unfold Database.write_events at h
      rw [if_neg (by simp [hne]), if_pos hc] at h
      exact absurd (congrArg Prod.snd h) (by simp)
    · unfold Database.write_events at h
      rw [if_neg (by simp [hne]), if_neg (by simp at hc ⊢; exact hc)] at h
      obtain ⟨w1, w2⟩ :=
        writeLoop_sid (es.zip (eventLengths es 0)) (totalLen (db.file.getD [])) 0
          { db with file := some (db.file.getD [] ++ es) }
      have hdb : db' = (writeLoop (es.zip (eventLengths es 0))
          (totalLen (db.file.getD [])) 0
          { db with file := some (db.file.getD [] ++ es) }).1 :=
        (congrArg Prod.fst h).symm
      subst hdb
      refine ⟨w1, ?_⟩
      intro p
      rw [w2 p, zip_any_fst es (eventLengths es 0)
        (by rw [eventLengths_length]) (fun e => decide ((e.source, e.id) = p))]

lemma insert_batch_ok_sid {db db' : Database} {es : List Event}
    {expd : ExpectedRevision} {r : Nat}
    (h : db.insert_batch es expd = (db', .ok r)) :
    db'.file = some (db.file.getD [] ++ es) ∧
    (∀ p, sidContains p db'.source_id_index =
      ((es.any (fun e => decide ((e.source, e.id) = p))) ||
        sidContains p db.source_id_index)) := by
  unfold Database.insert_batch at h
  by_cases hs : db.state = RunState.Running
  · rw [if_pos hs] at h
    by_cases hemp : es.isEmpty = true
    · rw [if_pos hemp] at h
      exact absurd (congrArg Prod.snd h) (by simp)
    · rw [if_neg hemp] at h
      by_cases hm : revisionMatch expd db.primary_index = true
      · rw [if_pos hm] at h
        exact write_events_ok_sid h
      · rw [if_neg hm] at h
        exact absurd (congrArg Prod.snd h) (by simp)
  · rw [if_neg hs] at h
    exact absurd (congrArg Prod.snd h) (by simp)

/-! ## Claim C8 -/

/-- C8: `delete_stream` is idempotent.  For a registered stream whose
file exists, the first call returns `Ok(true)` having removed the
registry entry and deleted the on-disk file (and cleared the in-memory
indexes); the second call returns `Ok(false)` and changes nothing;
deleting an absent stream returns `Ok(false)` rather than an error. -/
theorem delete_stream_idempotent :
    (∀ (s : AppState) (u i : String) (db : Database) (f : List Event),
      smLookup (u, i) s.streams = some db → db.file = some f →
      (s.delete_stream u i).2 = .ok true ∧
      smLookup (u, i) (s.delete_stream u i).1.streams = none ∧
      (s.delete_stream u i).1.delete_stream u i =
        ((s.delete_stream u i).1, .ok false) ∧
      (db.delete).1.file = none ∧
      (db.delete).1.primary_index = [] ∧
      (db.delete).1.source_id_index = []) ∧
    (∀ (s : AppState) (u i : String),
      smLookup (u, i) s.streams = none →
      s.delete_stream u i = (s, .ok false)) := by
  have hmain : ∀ (s : AppState) (u i : String) (db : Database) (f : List Event),
      smLookup (u, i) s.streams = some db → db.file = some f →
      s.delete_stream u i = (⟨smRemove (u, i) s.streams⟩, .ok true) := by
    intro s u i db f hlk hf
    have hdel : (db.delete).2 = .ok () := by
      unfold Database.delete
      rw [hf]
    unfold AppState.delete_stream
    simp only [hlk]
    rw [hdel]
  refine ⟨?_, fun s u i h => delete_stream_miss h⟩
  intro s u i db f hlk hf
  have h1 := hmain s u i db f hlk hf
  have hlk2 : smLookup (u, i) (s.delete_stream u i).1.streams = none := by
    rw [h1]
    exact smLookup_smRemove_self (u, i) s.streams
  refine ⟨by rw [h1], hlk2, delete_stream_miss hlk2, ?_, ?_, ?_⟩ <;>
    · unfold Database.delete
      rw [hf]

theorem delete_stream_idempotent_witness :
    (smLookup ("u", "s")
      (AppState.mk [(("u", "s"), Database.new (some [evA]))]).streams =
        some (Database.new (some [evA]))) ∧
    ((Database.new (some [evA])).file = some [evA]) ∧
    (((AppState.mk [(("u", "s"), Database.new (some [evA]))]).delete_stream
      "u" "s").2 = .ok true) ∧
    (smLookup ("u", "s")
      (((AppState.mk [(("u", "s"), Database.new (some [evA]))]).delete_stream
        "u" "s").1).streams = none) ∧
    ((((AppState.mk [(("u", "s"), Database.new (some [evA]))]).delete_stream
        "u" "s").1.delete_stream "u" "s") =
      ((((AppState.mk [(("u", "s"), Database.new (some [evA]))]).delete_stream
        "u" "s").1), .ok false)) :=
  have h := delete_stream_idempotent.1
    (AppState.mk [(("u", "s"), Database.new (some [evA]))]) "u" "s"
    (Database.new (some [evA])) [evA] (by decide) (by decide)
  ⟨by decide, by decide, h.1, h.2.1, h.2.2.1⟩

/-! ## Claim C9 -/

/-- C9: an append (insert or insert_batch) containing an event whose
`(source, id)` pair duplicates an event already accepted into the
stream is rejected with `SourceIdConflict`, leaving the database
unchanged; every successful append records the `(source, id)` pairs of
its batch in the per-stream map (preserving the map's agreement with
the log); and the map is rebuilt at startup by scanning the log. -/
theorem source_id_conflict_spec :
    (∀ (db : Database) (e : Event) (expd : ExpectedRevision),
      db.state = .Running → sidOk db →
      revisionMatch expd db.primary_index = true →
      (db.file.getD []).any
        (fun q => decide ((q.source, q.id) = (e.source, e.id))) = true →
      db.insert e expd = (db, .error .SourceIdConflict)) ∧
    (∀ (db : Database) (es : List Event) (e : Event) (expd : ExpectedRevision),
      db.state = .Running → sidOk db → e ∈ es →
      revisionMatch expd db.primary_index = true →
      (db.file.getD []).any
        (fun q => decide ((q.source, q.id) = (e.source, e.id))) = true →
      db.insert_batch es expd = (db, .error .SourceIdConflict)) ∧
    (∀ (db db' : Database) (es : List Event) (expd : ExpectedRevision) (r : Nat),
      db.insert_batch es expd = (db', .ok r) →
      (∀ e ∈ es, sidContains (e.source, e.id) db'.source_id_index = true) ∧
      (sidOk db → sidOk db')) ∧
    (∀ f : Option (List Event), sidOk (Database.started f)) := by
  refine ⟨?_, ?_, ?_, fun f => (started_spec f).2.2.2.2⟩
  · intro db e expd hs hso hm hfile
    have hcontains : sidContains (e.source, e.id) db.source_id_index = true := by
      rw [hso (e.source, e.id)]
      exact hfile
    unfold Database.insert Database.write_events
    rw [if_pos hs, if_pos hm, if_neg (by simp), if_pos (by simp [hcontains])]
  · intro db es e expd hs hso he hm hfile
    have hne : es ≠ [] := List.ne_nil_of_mem he
    have hemp : es.isEmpty = false := by
      cases es with
      | nil => exact absurd rfl hne
      | cons a t => rfl
    have hcontains : sidContains (e.source, e.id) db.source_id_index = true := by
      rw [hso (e.source, e.id)]
      exact hfile
    have hany : es.any
        (fun q => sidContains (q.source, q.id) db.source_id_index) = true :=
      List.any_eq_true.mpr ⟨e, he, hcontains⟩
    unfold Database.insert_batch Database.write_events
    rw [if_pos hs, if_neg (by simp [hemp]), if_pos hm,
      if_neg (by simp [hemp]), if_pos hany]
  · intro db db' es expd r h
    obtain ⟨hfile, hsid⟩ := insert_batch_ok_sid h
    constructor
    · intro e he
      rw [hsid (e.source, e.id)]
      have : es.any (fun q => decide ((q.source, q.id) = (e.source, e.id)))
          = true :=
        List.any_eq_true.mpr ⟨e, he, by simp⟩
      rw [this]
      rfl
    · intro hso p
      rw [hsid p, hso p, hfile]
      simp [List.any_append, Bool.or_comm]

theorem source_id_conflict_spec_witness :
    ((Database.started (some [evA])).state = RunState.Running) ∧
    (revisionMatch .Any (Database.started (some [evA])).primary_index = true) ∧
    (((Database.started (some [evA])).file.getD []).any
      (fun q => decide ((q.source, q.id) = (evA.source, evA.id))) = true) ∧
    ((Database.started (some [evA])).insert evA .Any =
      (Database.started (some [evA]), .error .SourceIdConflict)) :=
  ⟨by decide, by decide, by decide,
    source_id_conflict_spec.1 (Database.started (some [evA])) evA .Any
      (by decide) ((started_spec (some [evA])).2.2.2.2) (by decide) (by decide)⟩

/-! ## Claim C10 -/

/-- C10: `start()` is idempotent at the public interface.  On a
database already `Running` it returns `false` and leaves the database
(state and both in-memory indexes) completely unchanged; on a stopped
database (which in this codebase always carries empty in-memory
indexes) it loads the log, builds the primary index with the correct
byte offsets, rebuilds the source/id map, transitions to `Running`
and returns `true`. -/
theorem start_idempotent :
    (∀ db : Database, db.state = RunState.Running → db.start = (false, db)) ∧
    (∀ db : Database, db.state = RunState.Stopped →
      db.primary_index = [] → db.source_id_index = [] →
      (db.start).1 = true ∧
      (db.start).2.state = RunState.Running ∧
      (db.start).2.file = some (db.file.getD []) ∧
      (db.start).2.primary_index = correctIndex (db.file.getD []) ∧
      (∀ p, sidContains p (db.start).2.source_id_index =
        (db.file.getD []).any (fun e => decide ((e.source, e.id) = p)))) := by
  constructor
  · intro db hs
    unfold Database.start
    rw [hs]
  · intro db hs hp hq
    exact start_stopped_spec hs hp hq

theorem start_idempotent_witness :
    (db₀.state = RunState.Running) ∧ (db₀.start = (false, db₀)) ∧
    ((Database.new (some [evA])).state = RunState.Stopped) ∧
    (((Database.new (some [evA])).start).1 = true) ∧
    (((Database.new (some [evA])).start).2.state = RunState.Running) :=
  ⟨by decide, start_idempotent.1 db₀ (by decide), by decide,
    (start_idempotent.2 (Database.new (some [evA])) (by decide) (by decide)
      (by decide)).1,
    (start_idempotent.2 (Database.new (some [evA])) (by decide) (by decide)
      (by decide)).2.1⟩

end Hematite
